import Mathlib

/-!
# Verification of the csuperlu sparse-matrix and solve-pipeline layer

This file gives a shallow embedding, in Lean 4, of the pure data-structure
and classification logic of the csuperlu repository:

* the outcome classifier for the simple driver (`simple_result_from_vectors`
  in `src/c/simple_driver.rs` and `CSimpleResult::from_vectors` in
  `src/c/value_type.rs`);
* the triplet sparse matrix (`SparseMat` in `src/sparse_matrix.rs`), with its
  backing `HashMap<(usize, usize), P>` modelled as an association list with
  unique keys;
* the compressed-column matrix (`CompColMatrix` in `src/comp_col.rs`), its
  `value` lookup (which uses the Rust standard library slice binary search)
  and the naive matrix-vector `Mul` implementation;
* the structural validation of raw compressed-column vectors
  (`check_comp_col_conditions` in `src/c/comp_col/create_comp_col_mat.rs`
  and `CompColMat::from_raw` in `src/c/comp_col.rs`);
* the column-permutation handling of the simple drivers
  (`make_simple_perms` in `src/c/simple_driver.rs` and the options set up by
  `SamePattern::solve` in `src/simple_driver.rs`).

Rust operations that can panic (out-of-range indexing, failed `unwrap` of a
fallible integer conversion, assertion failures) are modelled with `Option`
or with an explicit outcome constructor, so that "panics" is an observable
result of the embedded function rather than undefined behaviour.
-/

namespace CSuperlu

/-! ## Outcome classifier (src/c/simple_driver.rs, src/c/value_type.rs)

`simple_result_from_vectors` inspects the `info` status code returned by the
`*gssv` routines.  The non-status payloads (the solution matrix, the
permutation vectors and the L/U factors) are moved unchanged into whichever
variant is produced, so the classification itself is a pure function of
`info : i32` and `num_cols_a : usize`.  `i32` values are embedded as `Int`
and `usize` values as `Nat`; no arithmetic here can overflow (`info as usize`
is only taken for `0 < info`, and `info as usize - 1` and
`info as usize - num_cols_a` are only taken on branches where they cannot
underflow). -/

/-- Result of classifying the `info` code: mirrors `Result<SimpleSolution,
SimpleError>` where `SimpleError` is `SingularFact`/`Err(UnknownError)`/
`Err(OutOfMemory)`. The payloads carried by the Rust variants (x, perm_c,
perm_r, l, u) are passed through unchanged, so they are omitted here. -/
inductive SimpleResult where
  /-- `Ok(SimpleSolution { .. })` -/
  | solution : SimpleResult
  /-- `Err(SimpleError::SingularFact { singular_column, .. })` -/
  | singularFact (singular_column : Nat) : SimpleResult
  /-- `Err(SimpleError::Err(Error::OutOfMemory { mem_alloc_at_failure }))` -/
  | outOfMemory (mem_alloc_at_failure : Nat) : SimpleResult
  /-- `Err(SimpleError::Err(Error::UnknownError))` -/
  | unknownError : SimpleResult
deriving DecidableEq

/-- Embedding of `simple_result_from_vectors` (src/c/simple_driver.rs lines
101-136); `CSimpleResult::from_vectors` (src/c/value_type.rs lines 173-208)
has the identical branch structure. -/
def simple_result_from_vectors (info : Int) (num_cols_a : Nat) : SimpleResult :=
  if info < 0 then
    SimpleResult.unknownError
  else if info = 0 then
    SimpleResult.solution
  else if info ≤ (num_cols_a : Int) then
    SimpleResult.singularFact (info - 1).toNat
  else
    SimpleResult.outOfMemory (info - (num_cols_a : Int)).toNat

/-! ## Triplet sparse matrix (src/sparse_matrix.rs)

The backing store `HashMap<(usize, usize), P>` is modelled as an association
list `List ((Nat × Nat) × α)`.  A `HashMap` never holds two entries with the
same key; that invariant is the predicate `MapNodupKeys` below, and equality
of two `HashMap`s (`PartialEq`) is extensional equality of lookups.  The
element type `P : ValueType` (a commutative numeric type with `==` and a
zero) is embedded as a type `α` with `[DecidableEq α] [Zero α]`. -/

/-- Key type `(usize, usize)`: a (row, column) pair. -/
abbrev MatKey := Nat × Nat

/-- `HashMap::get` modelled on an association list. -/
def mapLookup {α : Type} (k : MatKey) : List (MatKey × α) → Option α
  | [] => none
  | e :: t => if e.1 = k then some e.2 else mapLookup k t

/-- `HashMap::insert` modelled on an association list: replaces the entry if
the key is present, appends otherwise. -/
def mapInsert {α : Type} (k : MatKey) (v : α) : List (MatKey × α) → List (MatKey × α)
  | [] => [(k, v)]
  | e :: t => if e.1 = k then (k, v) :: t else e :: mapInsert k v t

/-- `HashMap::remove` modelled on an association list (removes the unique
entry with the given key, if present). -/
def mapRemove {α : Type} (k : MatKey) : List (MatKey × α) → List (MatKey × α)
  | [] => []
  | e :: t => if e.1 = k then t else e :: mapRemove k t

/-- `HashMap::contains_key`. -/
def mapContains {α : Type} (k : MatKey) (m : List (MatKey × α)) : Bool :=
  (mapLookup k m).isSome

/-- The `HashMap` representation invariant: no two entries share a key. -/
def MapNodupKeys {α : Type} (m : List (MatKey × α)) : Prop :=
  (m.map Prod.fst).Nodup

instance {α : Type} (m : List (MatKey × α)) : Decidable (MapNodupKeys m) :=
  inferInstanceAs (Decidable ((m.map Prod.fst).Nodup))

/-- `SparseMat<P>` (src/sparse_matrix.rs lines 9-14). -/
structure SparseMat (α : Type) where
  num_rows : Nat
  num_cols : Nat
  non_zero_vals : List (MatKey × α)
deriving DecidableEq

namespace SparseMat

variable {α : Type} [DecidableEq α] [Zero α]

/-- `SparseMat::insert` (src/sparse_matrix.rs lines 36-50).  The function
panics when the key is out of range for the matrix size; a panic is modelled
as `none`. -/
def insert (m : SparseMat α) (row col : Nat) (val : α) : Option (SparseMat α) :=
  if row ≥ m.num_rows ∨ col ≥ m.num_cols then
    none
  else if val = 0 then
    if mapContains (row, col) m.non_zero_vals then
      some { m with non_zero_vals := mapRemove (row, col) m.non_zero_vals }
    else
      some m
  else
    some { m with non_zero_vals := mapInsert (row, col) val m.non_zero_vals }

/-- `SparseMat::get` (src/sparse_matrix.rs lines 52-59); panics (modelled as
`none`) when the key is out of range, otherwise the stored value or zero. -/
def get (m : SparseMat α) (row col : Nat) : Option α :=
  if row ≥ m.num_rows ∨ col ≥ m.num_cols then
    none
  else
    some ((mapLookup (row, col) m.non_zero_vals).getD 0)

/-- `SparseMat::insert_unbounded` (src/sparse_matrix.rs lines 61-78): no
bounds check; a non-zero insert grows `num_rows`/`num_cols` to fit the key
(the two conditional dimension updates are independent of each other, so the
sequential Rust assignments are embedded as parallel field updates). -/
def insert_unbounded (m : SparseMat α) (row col : Nat) (val : α) : SparseMat α :=
  if val = 0 then
    if mapContains (row, col) m.non_zero_vals then
      { m with non_zero_vals := mapRemove (row, col) m.non_zero_vals }
    else
      m
  else
    { num_rows := if row ≥ m.num_rows then row + 1 else m.num_rows
      num_cols := if col ≥ m.num_cols then col + 1 else m.num_cols
      non_zero_vals := mapInsert (row, col) val m.non_zero_vals }

/-- `SparseMat::get_unbounded` (src/sparse_matrix.rs lines 80-85): total,
returns the stored value or zero, with no bounds check. -/
def get_unbounded (m : SparseMat α) (row col : Nat) : α :=
  (mapLookup (row, col) m.non_zero_vals).getD 0

/-- `keys().max_by_key(|k| f k)` reduced to the maximum of `f` over the keys
(the Rust code only ever uses the projection of the maximising key). `none`
corresponds to an empty map. -/
def maxNat? : List Nat → Option Nat
  | [] => none
  | x :: t =>
    match maxNat? t with
    | none => some x
    | some y => some (max x y)

/-- `SparseMat::resize_rows` (src/sparse_matrix.rs lines 116-125): panics
(`none`) when the requested row count is below the bounding box of the
stored keys. -/
def resize_rows (m : SparseMat α) (rows : Nat) : Option (SparseMat α) :=
  let num_rows_actual :=
    match maxNat? (m.non_zero_vals.map (fun e => e.1.1)) with
    | some max_index => max_index + 1
    | none => 0
  if rows < num_rows_actual then
    none
  else
    some { m with num_rows := rows }

/-- `SparseMat::resize_cols` (src/sparse_matrix.rs lines 129-138). -/
def resize_cols (m : SparseMat α) (cols : Nat) : Option (SparseMat α) :=
  let num_cols_actual :=
    match maxNat? (m.non_zero_vals.map (fun e => e.1.2)) with
    | some max_index => max_index + 1
    | none => 0
  if cols < num_cols_actual then
    none
  else
    some { m with num_cols := cols }

/-- `SparseMat::resize` (src/sparse_matrix.rs lines 109-112): rows first,
then columns; a panic in either step aborts the whole call. -/
def resize (m : SparseMat α) (rows cols : Nat) : Option (SparseMat α) :=
  match m.resize_rows rows with
  | none => none
  | some m1 => m1.resize_cols cols

/-- `SparseMat::transpose` (src/sparse_matrix.rs lines 189-199): iterates the
entries and inserts each `((row, col), val)` as `((col, row), val)` into a
fresh map. -/
def transpose (m : SparseMat α) : SparseMat α :=
  { num_rows := m.num_cols
    num_cols := m.num_rows
    non_zero_vals :=
      m.non_zero_vals.foldl (fun acc e => mapInsert (e.1.2, e.1.1) e.2 acc) [] }

end SparseMat

/-! ## Structural validation of raw compressed-column vectors
(src/c/comp_col/create_comp_col_mat.rs, src/c/comp_col.rs)

`check_comp_col_conditions` performs three checks in order.  The third check
converts the last column offset (an `i32`) to `usize` with
`.try_into().unwrap()`, which panics when the offset is negative; the panic
is modelled by the explicit outcome `panicked`. -/

/-- Outcome of `check_comp_col_conditions`: `Ok(())`, `Err(Error::CompColError)`,
or a panic from the failed `try_into().unwrap()` conversion. -/
inductive CheckOutcome where
  | ok : CheckOutcome
  | compColError : CheckOutcome
  | panicked : CheckOutcome
deriving DecidableEq

/-- Embedding of `check_comp_col_conditions`
(src/c/comp_col/create_comp_col_mat.rs lines 14-30). -/
def check_comp_col_conditions {α : Type} (non_zero_vals : List α)
    (row_indices : List Int) (col_offsets : List Int) : CheckOutcome :=
  if col_offsets.length = 0 then
    CheckOutcome.compColError
  else if non_zero_vals.length ≠ row_indices.length then
    CheckOutcome.compColError
  else
    match col_offsets.getLast? with
    | none => CheckOutcome.panicked
    | some num_non_zeros =>
      if num_non_zeros < 0 then
        -- `num_non_zeros.try_into().unwrap()` : i32 → usize fails on negatives
        CheckOutcome.panicked
      else if (row_indices.length : Int) ≠ num_non_zeros then
        CheckOutcome.compColError
      else
        CheckOutcome.ok

/-- `CompColRaw<P>` (src/c/comp_col.rs lines 16-21). -/
structure CompColRaw (α : Type) where
  num_rows : Nat
  non_zero_vals : List α
  row_indices : List Int
  col_offsets : List Int
deriving DecidableEq

/-- Outcome of `CompColMat::from_raw`.  On success the matrix stores exactly
the vectors it was given (the C creation routine only records pointers to
them), so the `ok` payload is the raw data held by the resulting matrix. -/
inductive FromRawResult (α : Type) where
  | ok (stored : CompColRaw α) : FromRawResult α
  | compColError : FromRawResult α
  | panicked : FromRawResult α
deriving DecidableEq

/-- Embedding of `CompColMat::from_raw` (src/c/comp_col.rs lines 69-85): it
destructures the raw vectors and runs `create_comp_col_matrix`.  On the Rust
side that function first runs `check_comp_col_conditions`, and then — while
building the arguments of the C call — evaluates
`i32::try_from(num_rows).unwrap()`
(src/c/comp_col/create_comp_col_mat.rs lines 74/99/124/149), which panics
when `num_rows` exceeds `i32::MAX` (`2^31 - 1`); the C call
`*Create_CompCol_Matrix` itself merely wraps the vectors and cannot fail.
On success the same vectors are stored unchanged in the `CompColMat`. -/
def CompColMat.from_raw {α : Type} (raw : CompColRaw α) : FromRawResult α :=
  match check_comp_col_conditions raw.non_zero_vals raw.row_indices raw.col_offsets with
  | CheckOutcome.ok =>
    if raw.num_rows < 2 ^ 31 then FromRawResult.ok raw
    else
      -- `i32::try_from(num_rows).unwrap()` : usize → i32 fails for num_rows > i32::MAX
      FromRawResult.panicked
  | CheckOutcome.compColError => FromRawResult.compColError
  | CheckOutcome.panicked => FromRawResult.panicked

/-! ## Compressed-column matrix value lookup and multiplication
(src/comp_col.rs)

`CompColMatrix<P>` wraps an `NCformat` store holding the non-zero values,
the row indices and the column offsets; `num_rows`/`num_columns` come from
the `SuperMatrix` header and `num_columns + 1` is the length of the offsets
slice.  The embedding keeps the three backing sequences and `num_rows`
explicitly; `num_columns` is `column_offsets.length - 1`, exactly the value
recorded by `*Create_CompCol_Matrix` (`col_offsets.len() - 1`). -/

/-- `CompColMatrix<P>` viewed through its `NCformat` store. -/
structure CompColMatrix (α : Type) where
  num_rows : Nat
  non_zero_values : List α
  row_indices : List Int
  column_offsets : List Int
deriving DecidableEq

namespace CompColMatrix

variable {α : Type}

/-- `num_columns` as recorded at creation: `col_offsets.len() - 1`. -/
def num_columns (m : CompColMatrix α) : Nat :=
  m.column_offsets.length - 1

/-- Rust `i32 as usize` conversion (64-bit `usize`): wraps modulo `2^64`, so
a negative offset becomes a huge positive index. -/
def usizeOfI32 (i : Int) : Nat :=
  (i % (2 : Int) ^ 64).toNat

/-- One step bound of `slice::binary_search` from the Rust standard library:
`while left < right { let mid = left + size / 2; ... }` with
`size = right - left`.  The loop is embedded with explicit fuel; each
iteration strictly shrinks `right - left`, so fuel `xs.length` (the initial
value of `right - left`) always suffices, and the fuel-exhausted branch
returns what the loop would return once `left = right`. -/
def bsearchLoop (xs : List Int) (target : Int) : Nat → Nat → Nat → Except Nat Nat
  | 0, left, _right => Except.error left
  | fuel + 1, left, right =>
    if left < right then
      if xs.getD (left + (right - left) / 2) 0 < target then
        bsearchLoop xs target fuel (left + (right - left) / 2 + 1) right
      else if target < xs.getD (left + (right - left) / 2) 0 then
        bsearchLoop xs target fuel left (left + (right - left) / 2)
      else
        Except.ok (left + (right - left) / 2)
    else
      Except.error left

/-- `slice::binary_search(&target)`: `Ok(i)` when `xs[i] = target` was found,
`Err(insertion_point)` otherwise (meaningful only on sorted slices). -/
def binary_search (xs : List Int) (target : Int) : Except Nat Nat :=
  bsearchLoop xs target xs.length 0 xs.length

/-- Start offset of column `c`: `column_offsets[c] as usize`.  For
`c ≤ num_columns` the slice index is in bounds, so `getD`'s default is never
used there. -/
def colStart (m : CompColMatrix α) (c : Nat) : Nat :=
  usizeOfI32 (m.column_offsets.getD c 0)

/-- The sub-slice `row_indices[col_start..col_end]` for column `c`. -/
def colSlice (m : CompColMatrix α) (c : Nat) : List Int :=
  (m.row_indices.take (m.colStart (c + 1))).drop (m.colStart c)

/-- Embedding of `CompColMatrix::value` (src/comp_col.rs lines 105-119).
Panics are modelled as `none`: the two bounds assertions, the slice
operation `row_indices[col_start..col_end]` (which panics when
`col_start > col_end` or `col_end > len`), and the indexing
`non_zero_values[col_start + row_index]`. -/
def value [Zero α] (m : CompColMatrix α) (row col : Nat) : Option α :=
  if m.num_rows ≤ row then
    none
  else if m.num_columns ≤ col then
    none
  else
    if m.colStart (col + 1) < m.colStart col ∨ m.row_indices.length < m.colStart (col + 1) then
      none
    else
      match binary_search (m.colSlice col) (row : Int) with
      | Except.ok row_index =>
        match m.non_zero_values.get? (m.colStart col + row_index) with
        | some v => some v
        | none => none
      | Except.error _ => some 0

/-- Embedding of the inner loop of `Mul for &mut CompColMatrix`
(src/comp_col.rs lines 177-191) for one row: the running sum
`value = value + (self.value(row, column) * x[row])`.  Note the source
multiplies by `x[row]`, not `x[column]`; the indexing `x[row]` panics
(`none`) when `row ≥ x.len()`. -/
def mulRow [Zero α] [Add α] [Mul α] (m : CompColMatrix α) (x : List α) (row : Nat) :
    Option α :=
  (List.range m.num_columns).foldl
    (fun acc column => do
      let v ← acc
      let a ← m.value row column
      let xr ← x.get? row
      pure (v + a * xr))
    (some 0)

/-- Embedding of `Mul for &mut CompColMatrix` (src/comp_col.rs lines
177-191): asserts `num_columns == x.len()` then pushes one summed value per
row. -/
def matVecMul [Zero α] [Add α] [Mul α] (m : CompColMatrix α) (x : List α) :
    Option (List α) :=
  if m.num_columns ≠ x.length then
    none
  else
    (List.range m.num_rows).mapM (fun row => m.mulRow x row)

/-- The compressed-column data-model invariant (spec section 3, and the
safety contract of `CompColMat::from_raw`): the offsets slice has length
`num_cols + 1`; every offset is a valid non-negative `i32`; offsets are
monotone with the last equal to `nnz`; `row_indices` and the values have
equal length `nnz`; and within each column's slice the row indices are
strictly ascending. -/
def WellFormed (m : CompColMatrix α) : Prop :=
  m.column_offsets.length = m.num_columns + 1 ∧
  (∀ c, c < m.column_offsets.length →
    0 ≤ m.column_offsets.getD c 0 ∧ m.column_offsets.getD c 0 < (2 : Int) ^ 31) ∧
  (∀ c, c < m.num_columns →
    m.column_offsets.getD c 0 ≤ m.column_offsets.getD (c + 1) 0) ∧
  m.column_offsets.getD m.num_columns 0 = (m.non_zero_values.length : Int) ∧
  m.row_indices.length = m.non_zero_values.length ∧
  (∀ c, c < m.num_columns → (m.colSlice c).Pairwise (· < ·))

instance (m : CompColMatrix α) : Decidable m.WellFormed := by
  unfold WellFormed
  infer_instance

end CompColMatrix

/-- The 2×2 matrix with a single non-zero entry `A[0,1] = 1` (stored as one
value in the second column), used to exercise the matrix-vector product. -/
def mulCounterexampleMatrix : CompColMatrix Int :=
  { num_rows := 2
    non_zero_values := [1]
    row_indices := [0]
    column_offsets := [0, 0, 1] }

/-- A concrete 3×2 compressed-column matrix (first column holds 5 at row 0
and 7 at row 2; second column empty), used as a witness input. -/
def compColW4 : CompColMatrix Int :=
  { num_rows := 3
    non_zero_values := [5, 7]
    row_indices := [0, 2]
    column_offsets := [0, 2, 2] }

/-! ## Column-permutation handling in the simple drivers
(src/c/simple_driver.rs, src/c/options.rs, src/simple_driver.rs)

Only the `ColPerm` field of `superlu_options_t` is involved in the claims
about permutation hints; it is the one field read or written on these
paths (the other option fields are carried through untouched by
`make_simple_perms` and are fixed to their defaults by
`set_default_options` in `SamePattern::solve`). -/

/-- The `colperm_t` values used by the wrapper. -/
inductive ColPermT where
  | natural : ColPermT
  | mmd_ata : ColPermT
  | mmd_at_plus_a : ColPermT
  | colamd : ColPermT
  | my_permc : ColPermT
deriving DecidableEq

/-- `CSuperluOptions` (src/c/options.rs lines 207-209), restricted to the
`ColPerm` field of the wrapped `superlu_options_t`. -/
structure CSuperluOptions where
  ColPerm : ColPermT
deriving DecidableEq

/-- `CSuperluOptions::new` (src/c/options.rs lines 228-237):
`set_default_options` sets `ColPerm = COLAMD`. -/
def CSuperluOptions.new : CSuperluOptions :=
  { ColPerm := ColPermT.colamd }

/-- `CSuperluOptions::set_user_column_perm` (src/c/options.rs lines 271-273). -/
def CSuperluOptions.set_user_column_perm (o : CSuperluOptions) : CSuperluOptions :=
  { o with ColPerm := ColPermT.my_permc }

/-- `ColumnPermPolicy` (src/c/options.rs lines 189-201). -/
inductive ColumnPermPolicy where
  | natural : ColumnPermPolicy
  | mmdAtA : ColumnPermPolicy
  | mmdAtPlusA : ColumnPermPolicy
  | colAMD : ColumnPermPolicy
deriving DecidableEq

/-- `CSuperluOptions::set_column_perm_policy` (src/c/options.rs lines 260-267). -/
def CSuperluOptions.set_column_perm_policy (o : CSuperluOptions)
    (policy : ColumnPermPolicy) : CSuperluOptions :=
  match policy with
  | ColumnPermPolicy.natural => { o with ColPerm := ColPermT.natural }
  | ColumnPermPolicy.mmdAtA => { o with ColPerm := ColPermT.mmd_ata }
  | ColumnPermPolicy.mmdAtPlusA => { o with ColPerm := ColPermT.mmd_at_plus_a }
  | ColumnPermPolicy.colAMD => { o with ColPerm := ColPermT.colamd }

/-- `SimpleDriverOptions` (src/c/options.rs lines 40-43), again restricted
to the fields relevant to column permutations. -/
structure SimpleDriverOptions where
  options : CSuperluOptions
  diagonally_dominant : Bool
deriving DecidableEq

/-- `SimpleDriverOptions::set_user_column_perm` (src/c/options.rs lines
100-102). -/
def SimpleDriverOptions.set_user_column_perm (o : SimpleDriverOptions) :
    SimpleDriverOptions :=
  { o with options := o.options.set_user_column_perm }

/-- A permutation buffer handed to the external solver: either the vector a
caller supplied as a hint, or a freshly allocated buffer of the given length
whose contents are uninitialised (`Vec::with_capacity` + `set_len`). -/
inductive PermBuf where
  | given (perm : List Int) : PermBuf
  | uninit (len : Nat) : PermBuf
deriving DecidableEq

/-- Embedding of `make_simple_perms` (src/c/simple_driver.rs lines 143-168):
returns `(perm_c, perm_r, options)`; a supplied column permutation switches
the options to `MY_PERMC`, and absent a hint the options pass through
unchanged. -/
def make_simple_perms (size : Nat) (perm_c : Option (List Int))
    (options : SimpleDriverOptions) : PermBuf × PermBuf × SimpleDriverOptions :=
  match perm_c with
  | some perm =>
    (PermBuf.given perm, PermBuf.uninit size, options.set_user_column_perm)
  | none =>
    (PermBuf.uninit size, PermBuf.uninit size, options)

/-- The options built inside `SamePattern::solve` (src/simple_driver.rs
lines 108-168): fresh default options with `ColPerm` overwritten to
`MY_PERMC` before the solver call. -/
def same_pattern_solve_options : CSuperluOptions :=
  { CSuperluOptions.new with ColPerm := ColPermT.my_permc }

/-- The options built inside `SimpleSystem::solve` (src/simple_driver.rs
lines 186-242): fresh default options with `ColPerm` set from the caller's
policy. -/
def simple_system_solve_options (policy : ColumnPermPolicy) : CSuperluOptions :=
  CSuperluOptions.new.set_column_perm_policy policy

/-! ## Lemmas about the association-list model of `HashMap` -/

section MapLemmas

variable {α : Type}

theorem mapLookup_eq_none_of_not_mem {k : MatKey} {m : List (MatKey × α)}
    (h : k ∉ m.map Prod.fst) : mapLookup k m = none := by
  induction m with
  | nil => rfl
  | cons e t ih =>
    simp only [List.map_cons, List.mem_cons] at h
    push_neg at h
    rw [mapLookup, if_neg (Ne.symm h.1), ih h.2]

theorem mapLookup_mapInsert_self (k : MatKey) (v : α) (m : List (MatKey × α)) :
    mapLookup k (mapInsert k v m) = some v := by
  induction m with
  | nil => simp [mapInsert, mapLookup]
  | cons e t ih =>
    by_cases he : e.1 = k
    · simp [mapInsert, mapLookup, he]
    · simp [mapInsert, mapLookup, he, ih]

theorem mapLookup_mapInsert_ne {k' k : MatKey} (v : α) (m : List (MatKey × α))
    (h : k' ≠ k) : mapLookup k' (mapInsert k v m) = mapLookup k' m := by
  induction m with
  | nil => simp [mapInsert, mapLookup, Ne.symm h]
  | cons e t ih =>
    by_cases he : e.1 = k
    · simp [mapInsert, mapLookup, he, Ne.symm h]
    · simp [mapInsert, mapLookup, he, ih]

theorem mapLookup_mapRemove_ne {k' k : MatKey} (m : List (MatKey × α))
    (h : k' ≠ k) : mapLookup k' (mapRemove k m) = mapLookup k' m := by
  induction m with
  | nil => rfl
  | cons e t ih =>
    by_cases he : e.1 = k
    · simp [mapRemove, mapLookup, he, Ne.symm h]
    · simp [mapRemove, mapLookup, he, ih]

theorem mapLookup_mapRemove_self {k : MatKey} {m : List (MatKey × α)}
    (hnd : MapNodupKeys m) : mapLookup k (mapRemove k m) = none := by
  induction m with
  | nil => rfl
  | cons e t ih =>
    simp only [MapNodupKeys, List.map_cons, List.nodup_cons] at hnd
    by_cases he : e.1 = k
    · rw [mapRemove, if_pos he]
      subst he
      exact mapLookup_eq_none_of_not_mem hnd.1
    · rw [mapRemove, if_neg he, mapLookup, if_neg he]
      exact ih hnd.2

theorem mem_keys_mapInsert {k' k : MatKey} (v : α) (m : List (MatKey × α)) :
    k' ∈ (mapInsert k v m).map Prod.fst ↔ k' = k ∨ k' ∈ m.map Prod.fst := by
  induction m with
  | nil => simp [mapInsert]
  | cons e t ih =>
    by_cases he : e.1 = k
    · subst he
      rw [mapInsert, if_pos rfl]
      simp only [List.map_cons, List.mem_cons]
      tauto
    · rw [mapInsert, if_neg he]
      simp only [List.map_cons, List.mem_cons, ih]
      tauto

theorem mapInsert_nodupKeys {k : MatKey} {v : α} {m : List (MatKey × α)}
    (hnd : MapNodupKeys m) : MapNodupKeys (mapInsert k v m) := by
  induction m with
  | nil => simp [MapNodupKeys, mapInsert]
  | cons e t ih =>
    simp only [MapNodupKeys, List.map_cons, List.nodup_cons] at hnd
    by_cases he : e.1 = k
    · rw [MapNodupKeys, mapInsert, if_pos he]
      simp only [List.map_cons, List.nodup_cons]
      exact ⟨by rw [← he]; exact hnd.1, hnd.2⟩
    · rw [MapNodupKeys, mapInsert, if_neg he]
      simp only [List.map_cons, List.nodup_cons]
      refine ⟨?_, ih hnd.2⟩
      rw [mem_keys_mapInsert]
      rintro (h | h)
      · exact he h
      · exact hnd.1 h

theorem mapContains_eq_false_iff (k : MatKey) (m : List (MatKey × α)) :
    mapContains k m = false ↔ mapLookup k m = none := by
  unfold mapContains
  cases mapLookup k m <;> simp

theorem maxNat?_eq_none_iff (l : List Nat) :
    SparseMat.maxNat? l = none ↔ l = [] := by
  cases l with
  | nil => simp [SparseMat.maxNat?]
  | cons x t =>
    rw [SparseMat.maxNat?]
    cases SparseMat.maxNat? t <;> simp

/-- The quantity `max_by_key(...).0 + 1` (or `0` for an empty map) is at most
`r` exactly when every listed index is below `r`. -/
theorem maxNat?_succ_le_iff (l : List Nat) (r : Nat) :
    (match SparseMat.maxNat? l with
     | some mx => mx + 1
     | none => 0) ≤ r ↔ ∀ x ∈ l, x < r := by
  induction l with
  | nil => simp [SparseMat.maxNat?]
  | cons x t ih =>
    rw [SparseMat.maxNat?]
    cases h : SparseMat.maxNat? t with
    | none =>
      have ht : t = [] := (maxNat?_eq_none_iff t).mp h
      subst ht
      show x + 1 ≤ r ↔ ∀ y ∈ [x], y < r
      constructor
      · intro hle y hy
        simp only [List.mem_cons, List.not_mem_nil, or_false] at hy
        omega
      · intro hall
        have := hall x (by simp)
        omega
    | some mx =>
      have ih2 : mx + 1 ≤ r ↔ ∀ y ∈ t, y < r := by
        rw [h] at ih
        exact ih
      show max x mx + 1 ≤ r ↔ ∀ y ∈ x :: t, y < r
      rw [List.forall_mem_cons, ← ih2]
      rcases Nat.le_total x mx with hx | hx
      · rw [max_eq_right hx]
        omega
      · rw [max_eq_left hx]
        omega

/-- Fold-inserting swapped entries into a map with no duplicate keys keeps
the no-duplicate-keys invariant. -/
theorem transpose_foldl_nodupKeys (l : List (MatKey × α)) (init : List (MatKey × α))
    (hnd : MapNodupKeys init) :
    MapNodupKeys (l.foldl (fun acc e => mapInsert (e.1.2, e.1.1) e.2 acc) init) := by
  induction l generalizing init with
  | nil => exact hnd
  | cons e t ih =>
    rw [List.foldl_cons]
    exact ih _ (mapInsert_nodupKeys hnd)

/-- Looking up `k` after fold-inserting every entry of `l` at its swapped
key: the last write wins, and since the keys of `l` are unique this is the
entry of `l` at the swapped key, falling back to the accumulator. -/
theorem transpose_foldl_lookup (l : List (MatKey × α)) (init : List (MatKey × α))
    (k : MatKey) (hnd : MapNodupKeys l) :
    mapLookup k (l.foldl (fun acc e => mapInsert (e.1.2, e.1.1) e.2 acc) init) =
      match mapLookup (k.2, k.1) l with
      | some v => some v
      | none => mapLookup k init := by
  induction l generalizing init with
  | nil => rfl
  | cons e t ih =>
    simp only [MapNodupKeys, List.map_cons, List.nodup_cons] at hnd
    rw [List.foldl_cons, ih _ hnd.2]
    by_cases hk : e.1 = (k.2, k.1)
    · have hk2 : k = (e.1.2, e.1.1) := by
        rw [hk]
      have hnone : mapLookup (k.2, k.1) t = none := by
        rw [← hk]
        exact mapLookup_eq_none_of_not_mem hnd.1
      rw [hnone, mapLookup, if_pos hk]
      dsimp only
      rw [hk2, mapLookup_mapInsert_self]
    · rw [mapLookup, if_neg hk]
      cases hlt : mapLookup (k.2, k.1) t with
      | some v => rfl
      | none =>
        dsimp only
        refine mapLookup_mapInsert_ne _ _ (fun hkk => hk ?_)
        rw [hkk]

end MapLemmas

/-! ## Claim theorems -/

/-- **C1** (confirmed): for every status code `info` and matrix dimension
`n`, the outcome classifier `simple_result_from_vectors` yields exactly one
of four results: `unknownError` when `info < 0`; a solved outcome when
`info = 0`; a singular factorization carrying zero-based column `info - 1`
when `0 < info ≤ n`; and an out-of-memory error carrying `info - n` bytes
when `info > n`.  In particular `info = n` is classified as singular with
column `n - 1`, and `info = n + 1` as out-of-memory with `1` byte. -/
theorem outcome_classifier_totality (info : Int) (n : Nat) :
    (info < 0 → simple_result_from_vectors info n = SimpleResult.unknownError) ∧
    (info = 0 → simple_result_from_vectors info n = SimpleResult.solution) ∧
    (0 < info → info ≤ (n : Int) →
      simple_result_from_vectors info n = SimpleResult.singularFact (info - 1).toNat) ∧
    ((n : Int) < info →
      simple_result_from_vectors info n = SimpleResult.outOfMemory (info - (n : Int)).toNat) ∧
    (0 < n → simple_result_from_vectors (n : Int) n = SimpleResult.singularFact (n - 1)) ∧
    simple_result_from_vectors ((n : Int) + 1) n = SimpleResult.outOfMemory 1 := by
  unfold simple_result_from_vectors
  refine ⟨fun h => ?_, fun h => ?_, fun h1 h2 => ?_, fun h => ?_, fun h => ?_, ?_⟩
  · rw [if_pos h]
  · rw [if_neg (by omega), if_pos h]
  · rw [if_neg (by omega), if_neg (by omega), if_pos h2]
  · rw [if_neg (by omega), if_neg (by omega), if_neg (by omega)]
  · rw [if_neg (by omega), if_neg (by omega), if_pos (le_refl _)]
    congr 1
    omega
  · rw [if_neg (by omega), if_neg (by omega), if_neg (by omega)]
    congr 1
    omega

/-- Witness for C1: concrete boundary inputs `info = n = 3` (singular at
column 2) and `info = 4, n = 3` (out of memory with 1 byte). -/
theorem outcome_classifier_totality_witness :
    simple_result_from_vectors 3 3 = SimpleResult.singularFact 2 ∧
    simple_result_from_vectors 4 3 = SimpleResult.outOfMemory 1 := by
  constructor
  · have h := (outcome_classifier_totality 3 3).2.2.2.2.1 (by decide)
    simpa using h
  · have h := (outcome_classifier_totality 4 3).2.2.2.1 (by norm_num)
    simpa using h

/-- **C5** (confirmed): supplying a column-permutation hint forces the
`ColPerm` field to `MY_PERMC`: `make_simple_perms` with `Some(perm)` does so
for any prior options, and `SamePattern::solve` builds its options with
`ColPerm = MY_PERMC`; with no hint (`None`) the options pass through
`make_simple_perms` unchanged, keeping whatever policy the caller chose. -/
theorem perm_hint_forces_my_permc (size : Nat) (perm : List Int)
    (opts : SimpleDriverOptions) :
    (make_simple_perms size (some perm) opts).2.2.options.ColPerm = ColPermT.my_permc ∧
    (make_simple_perms size none opts).2.2 = opts ∧
    same_pattern_solve_options.ColPerm = ColPermT.my_permc :=
  ⟨rfl, rfl, rfl⟩

/-- **C6** (confirmed): for an in-range key, inserting the value `0` into a
triplet matrix succeeds and leaves the backing map with no entry at that
key (whether or not one was present), and a subsequent `get` at that key
returns the additive identity. -/
theorem insert_zero_removes_entry {α : Type} [DecidableEq α] [Zero α]
    (m : SparseMat α) (row col : Nat)
    (hnd : MapNodupKeys m.non_zero_vals)
    (hrow : row < m.num_rows) (hcol : col < m.num_cols) :
    ∃ m2, m.insert row col 0 = some m2 ∧
      mapLookup (row, col) m2.non_zero_vals = none ∧
      m2.get row col = some 0 := by
  have hb : ¬(m.num_rows ≤ row ∨ m.num_cols ≤ col) := by omega
  unfold SparseMat.insert
  rw [if_neg hb, if_pos rfl]
  by_cases hc : mapContains (row, col) m.non_zero_vals = true
  · rw [if_pos hc]
    refine ⟨_, rfl, mapLookup_mapRemove_self hnd, ?_⟩
    unfold SparseMat.get
    rw [if_neg hb, mapLookup_mapRemove_self hnd]
    rfl
  · rw [if_neg hc]
    have hn : mapLookup (row, col) m.non_zero_vals = none :=
      (mapContains_eq_false_iff _ _).mp (by simpa using hc)
    refine ⟨m, rfl, hn, ?_⟩
    unfold SparseMat.get
    rw [if_neg hb, hn]
    rfl

/-- Witness for C6 at a concrete matrix holding an entry at the key. -/
theorem insert_zero_removes_entry_witness :
    MapNodupKeys (SparseMat.mk 2 3 [((0, 1), (5 : Int)), ((1, 2), 7)]).non_zero_vals ∧
    (0 : Nat) < 2 ∧ (1 : Nat) < 3 ∧
    ∃ m2, (SparseMat.mk 2 3 [((0, 1), (5 : Int)), ((1, 2), 7)]).insert 0 1 0 = some m2 ∧
      mapLookup (0, 1) m2.non_zero_vals = none ∧
      m2.get 0 1 = some 0 :=
  ⟨by decide, by decide, by decide,
    insert_zero_removes_entry (SparseMat.mk 2 3 [((0, 1), (5 : Int)), ((1, 2), 7)])
      0 1 (by decide) (by decide) (by decide)⟩

theorem resize_rows_eq_none_iff {α : Type} [DecidableEq α] [Zero α]
    (m : SparseMat α) (rows : Nat) :
    m.resize_rows rows = none ↔ ∃ e ∈ m.non_zero_vals, rows ≤ e.1.1 := by
  have hb := maxNat?_succ_le_iff (m.non_zero_vals.map (fun e => e.1.1)) rows
  simp only [SparseMat.resize_rows]
  split_ifs with hlt
  · simp only [true_iff]
    by_contra hno
    push_neg at hno
    have hall : ∀ x ∈ List.map (fun e => e.1.1) m.non_zero_vals, x < rows := by
      intro x hx
      rcases List.mem_map.mp hx with ⟨e, he, rfl⟩
      exact hno e he
    have h1 := hb.mpr hall
    omega
  · constructor
    · intro h
      exact absurd h (by simp)
    · rintro ⟨e, he, hre⟩
      have hall := hb.mp (by omega)
      have h2 := hall e.1.1 (List.mem_map.mpr ⟨e, he, rfl⟩)
      omega

theorem resize_rows_eq_some {α : Type} [DecidableEq α] [Zero α]
    {m m2 : SparseMat α} {rows : Nat} (h : m.resize_rows rows = some m2) :
    m2 = { m with num_rows := rows } := by
  simp only [SparseMat.resize_rows] at h
  split_ifs at h
  exact (Option.some_inj.mp h).symm

theorem resize_cols_eq_none_iff {α : Type} [DecidableEq α] [Zero α]
    (m : SparseMat α) (cols : Nat) :
    m.resize_cols cols = none ↔ ∃ e ∈ m.non_zero_vals, cols ≤ e.1.2 := by
  have hb := maxNat?_succ_le_iff (m.non_zero_vals.map (fun e => e.1.2)) cols
  simp only [SparseMat.resize_cols]
  split_ifs with hlt
  · simp only [true_iff]
    by_contra hno
    push_neg at hno
    have hall : ∀ x ∈ List.map (fun e => e.1.2) m.non_zero_vals, x < cols := by
      intro x hx
      rcases List.mem_map.mp hx with ⟨e, he, rfl⟩
      exact hno e he
    have h1 := hb.mpr hall
    omega
  · constructor
    · intro h
      exact absurd h (by simp)
    · rintro ⟨e, he, hre⟩
      have hall := hb.mp (by omega)
      have h2 := hall e.1.2 (List.mem_map.mpr ⟨e, he, rfl⟩)
      omega

theorem resize_cols_eq_some {α : Type} [DecidableEq α] [Zero α]
    {m m2 : SparseMat α} {cols : Nat} (h : m.resize_cols cols = some m2) :
    m2 = { m with num_cols := cols } := by
  simp only [SparseMat.resize_cols] at h
  split_ifs at h
  exact (Option.some_inj.mp h).symm

/-- **C7** (confirmed): `resize(rows, cols)` fails (panics, modelled as
`none`) exactly when the request would shrink the matrix below the bounding
box of the stored entries — some stored key has row index `≥ rows` or
column index `≥ cols` (so an empty matrix resizes to any size); on success
`num_rows`/`num_cols` become the requested values and the stored entries
are unchanged. -/
theorem resize_bounding_box {α : Type} [DecidableEq α] [Zero α]
    (m : SparseMat α) (rows cols : Nat) :
    (m.resize rows cols = none ↔
      (∃ e ∈ m.non_zero_vals, rows ≤ e.1.1) ∨ (∃ e ∈ m.non_zero_vals, cols ≤ e.1.2)) ∧
    (∀ m2, m.resize rows cols = some m2 →
      m2.num_rows = rows ∧ m2.num_cols = cols ∧
      m2.non_zero_vals = m.non_zero_vals) := by
  constructor
  · constructor
    · intro h
      unfold SparseMat.resize at h
      cases hr : m.resize_rows rows with
      | none => exact Or.inl ((resize_rows_eq_none_iff m rows).mp hr)
      | some m1 =>
        rw [hr] at h
        have h2 : m1.resize_cols cols = none := h
        have hv : m1.non_zero_vals = m.non_zero_vals := by
          rw [resize_rows_eq_some hr]
        rcases (resize_cols_eq_none_iff m1 cols).mp h2 with ⟨e, he, hce⟩
        refine Or.inr ⟨e, ?_, hce⟩
        rw [← hv]
        exact he
    · intro h
      unfold SparseMat.resize
      rcases h with h | h
      · rw [(resize_rows_eq_none_iff m rows).mpr h]
      · cases hr : m.resize_rows rows with
        | none => rfl
        | some m1 =>
          show m1.resize_cols cols = none
          have hv : m1.non_zero_vals = m.non_zero_vals := by
            rw [resize_rows_eq_some hr]
          rcases h with ⟨e, he, hce⟩
          refine (resize_cols_eq_none_iff m1 cols).mpr ⟨e, ?_, hce⟩
          rw [hv]
          exact he
  · intro m2 h
    unfold SparseMat.resize at h
    cases hr : m.resize_rows rows with
    | none =>
      rw [hr] at h
      have h2 : (none : Option (SparseMat α)) = some m2 := h
      cases h2
    | some m1 =>
      rw [hr] at h
      have h2 : m1.resize_cols cols = some m2 := h
      have hm2 := resize_cols_eq_some h2
      subst hm2
      rw [resize_rows_eq_some hr]
      exact ⟨rfl, rfl, rfl⟩

/-- Witness for C7: a concrete matrix with bounding box 2×3 resized up to
4×4 (success) — the statement instantiates both directions of the
characterisation at that matrix. -/
theorem resize_bounding_box_witness :
    (((SparseMat.mk 2 3 [((1, 2), (7 : Int))]).resize 4 4 = none ↔
      (∃ e ∈ [((1, 2), (7 : Int))], 4 ≤ e.1.1) ∨
      (∃ e ∈ [((1, 2), (7 : Int))], 4 ≤ e.1.2)) ∧
     (∀ m2, (SparseMat.mk 2 3 [((1, 2), (7 : Int))]).resize 4 4 = some m2 →
       m2.num_rows = 4 ∧ m2.num_cols = 4 ∧
       m2.non_zero_vals = [((1, 2), (7 : Int))])) :=
  resize_bounding_box (SparseMat.mk 2 3 [((1, 2), (7 : Int))]) 4 4

/-- **C9** (confirmed): `insert_unbounded(row, col, 0)` removes any existing
entry at `(row, col)` (and touches no other entry) but never changes
`num_rows` or `num_cols`, even when the key lies beyond the current
dimensions; for a non-zero value the dimensions grow to fit the key
(`max num_rows (row+1)`, `max num_cols (col+1)`), so automatic growth
happens only for non-zero inserts. -/
theorem insert_unbounded_zero_frame {α : Type} [DecidableEq α] [Zero α]
    (m : SparseMat α) (row col : Nat) (hnd : MapNodupKeys m.non_zero_vals) :
    ((m.insert_unbounded row col 0).num_rows = m.num_rows ∧
     (m.insert_unbounded row col 0).num_cols = m.num_cols ∧
     mapLookup (row, col) (m.insert_unbounded row col 0).non_zero_vals = none ∧
     (∀ k, k ≠ (row, col) →
       mapLookup k (m.insert_unbounded row col 0).non_zero_vals =
         mapLookup k m.non_zero_vals)) ∧
    (∀ v : α, v ≠ 0 →
      (m.insert_unbounded row col v).num_rows = max m.num_rows (row + 1) ∧
      (m.insert_unbounded row col v).num_cols = max m.num_cols (col + 1)) := by
  constructor
  · unfold SparseMat.insert_unbounded
    rw [if_pos rfl]
    by_cases hc : mapContains (row, col) m.non_zero_vals = true
    · rw [if_pos hc]
      exact ⟨rfl, rfl, mapLookup_mapRemove_self hnd,
        fun k hk => mapLookup_mapRemove_ne _ hk⟩
    · rw [if_neg hc]
      exact ⟨rfl, rfl, (mapContains_eq_false_iff _ _).mp (by simpa using hc),
        fun k hk => rfl⟩
  · intro v hv
    unfold SparseMat.insert_unbounded
    rw [if_neg hv]
    constructor
    · show (if m.num_rows ≤ row then row + 1 else m.num_rows) = max m.num_rows (row + 1)
      split_ifs with h
      · exact (max_eq_right (by omega)).symm
      · exact (max_eq_left (by omega)).symm
    · show (if m.num_cols ≤ col then col + 1 else m.num_cols) = max m.num_cols (col + 1)
      split_ifs with h
      · exact (max_eq_right (by omega)).symm
      · exact (max_eq_left (by omega)).symm

/-- Witness for C9 at a concrete matrix, zero-inserting at a key beyond the
current 2×3 dimensions. -/
theorem insert_unbounded_zero_frame_witness :
    MapNodupKeys (SparseMat.mk 2 3 [((1, 2), (7 : Int))]).non_zero_vals ∧
    ((SparseMat.mk 2 3 [((1, 2), (7 : Int))]).insert_unbounded 5 9 0).num_rows = 2 ∧
    ((SparseMat.mk 2 3 [((1, 2), (7 : Int))]).insert_unbounded 5 9 0).num_cols = 3 ∧
    mapLookup (5, 9)
      ((SparseMat.mk 2 3 [((1, 2), (7 : Int))]).insert_unbounded 5 9 0).non_zero_vals
      = none := by
  have h := insert_unbounded_zero_frame (SparseMat.mk 2 3 [((1, 2), (7 : Int))])
    5 9 (by decide)
  exact ⟨by decide, h.1.1, h.1.2.1, h.1.2.2.1⟩

/-- **C10** (confirmed): `get_unbounded` is total — it returns the stored
value when the key is present in the backing map and the additive identity
otherwise, for any indices, including ones at or beyond
`num_rows`/`num_cols`; `get`, in contrast, fails (panics, modelled as
`none`) on out-of-range indices, and agrees with `get_unbounded` in
range. -/
theorem get_unbounded_total {α : Type} [DecidableEq α] [Zero α]
    (m : SparseMat α) (row col : Nat) :
    (∀ v, mapLookup (row, col) m.non_zero_vals = some v →
      m.get_unbounded row col = v) ∧
    (mapLookup (row, col) m.non_zero_vals = none →
      m.get_unbounded row col = 0) ∧
    (m.num_rows ≤ row ∨ m.num_cols ≤ col → m.get row col = none) ∧
    (row < m.num_rows → col < m.num_cols →
      m.get row col = some (m.get_unbounded row col)) := by
  refine ⟨fun v hv => ?_, fun hv => ?_, fun hb => ?_, fun hr hc => ?_⟩
  · unfold SparseMat.get_unbounded
    rw [hv]
    rfl
  · unfold SparseMat.get_unbounded
    rw [hv]
    rfl
  · unfold SparseMat.get
    rw [if_pos hb]
  · unfold SparseMat.get SparseMat.get_unbounded
    rw [if_neg (by omega)]

/-- Witness for C10 at a concrete matrix: out-of-range indices and an
in-range hit. -/
theorem get_unbounded_total_witness :
    ((SparseMat.mk 2 3 [((1, 2), (7 : Int))]).num_rows ≤ 5 ∨
      (SparseMat.mk 2 3 [((1, 2), (7 : Int))]).num_cols ≤ 9) ∧
    (SparseMat.mk 2 3 [((1, 2), (7 : Int))]).get 5 9 = none ∧
    (SparseMat.mk 2 3 [((1, 2), (7 : Int))]).get_unbounded 5 9 = 0 := by
  have h := get_unbounded_total (SparseMat.mk 2 3 [((1, 2), (7 : Int))]) 5 9
  exact ⟨Or.inl (by decide), h.2.2.1 (Or.inl (by decide)), h.2.1 (by decide)⟩

/-- **C8** (confirmed): `transpose` returns a new matrix with
`num_rows`/`num_cols` swapped whose backing map stores exactly the swapped
entries — the entry at `(r, c)` of the transpose is the entry at `(c, r)` of
the original — and transposing twice gives back a matrix equal (in the
sense of `PartialEq` on the dimensions and the backing `HashMap`, i.e.
extensionally) to the original; the original matrix is not modified
(`transpose` takes `&self` and is embedded as a pure function). -/
theorem transpose_swaps {α : Type} [DecidableEq α] [Zero α]
    (m : SparseMat α) (hnd : MapNodupKeys m.non_zero_vals) :
    m.transpose.num_rows = m.num_cols ∧
    m.transpose.num_cols = m.num_rows ∧
    (∀ r c, mapLookup (r, c) m.transpose.non_zero_vals =
      mapLookup (c, r) m.non_zero_vals) ∧
    m.transpose.transpose.num_rows = m.num_rows ∧
    m.transpose.transpose.num_cols = m.num_cols ∧
    (∀ k, mapLookup k m.transpose.transpose.non_zero_vals =
      mapLookup k m.non_zero_vals) := by
  have hswap : ∀ (mm : SparseMat α), MapNodupKeys mm.non_zero_vals →
      ∀ r c, mapLookup (r, c) mm.transpose.non_zero_vals =
        mapLookup (c, r) mm.non_zero_vals := by
    intro mm hmm r c
    unfold SparseMat.transpose
    rw [transpose_foldl_lookup _ _ _ hmm]
    cases mapLookup (c, r) mm.non_zero_vals <;> rfl
  have hndT : MapNodupKeys m.transpose.non_zero_vals := by
    unfold SparseMat.transpose
    exact transpose_foldl_nodupKeys _ _ (by simp [MapNodupKeys])
  refine ⟨rfl, rfl, hswap m hnd, rfl, rfl, fun k => ?_⟩
  rw [show k = (k.1, k.2) from rfl, hswap m.transpose hndT k.1 k.2,
    hswap m hnd k.2 k.1]

/-- Witness for C8 at a concrete 2×3 matrix with two entries. -/
theorem transpose_swaps_witness :
    MapNodupKeys (SparseMat.mk 2 3 [((0, 1), (5 : Int)), ((1, 2), 7)]).non_zero_vals ∧
    (SparseMat.mk 2 3 [((0, 1), (5 : Int)), ((1, 2), 7)]).transpose.num_rows = 3 ∧
    (SparseMat.mk 2 3 [((0, 1), (5 : Int)), ((1, 2), 7)]).transpose.num_cols = 2 ∧
    (∀ k, mapLookup k
        (SparseMat.mk 2 3 [((0, 1), (5 : Int)), ((1, 2), 7)]).transpose.transpose.non_zero_vals =
      mapLookup k (SparseMat.mk 2 3 [((0, 1), (5 : Int)), ((1, 2), 7)]).non_zero_vals) := by
  have h := transpose_swaps (SparseMat.mk 2 3 [((0, 1), (5 : Int)), ((1, 2), 7)])
    (by decide)
  exact ⟨by decide, h.1, h.2.1, h.2.2.2.2.2⟩

/-- Exact case analysis of `check_comp_col_conditions`: which inputs yield
`Err(CompColError)`, which panic on the `try_into().unwrap()` conversion of a
negative last offset, and which pass. -/
theorem check_comp_col_cases {α : Type} (vals : List α) (ri co : List Int) :
    (check_comp_col_conditions vals ri co = CheckOutcome.compColError ↔
      co.length = 0 ∨
      (co.length ≠ 0 ∧ vals.length ≠ ri.length) ∨
      (co.length ≠ 0 ∧ vals.length = ri.length ∧
        ∃ l, co.getLast? = some l ∧ 0 ≤ l ∧ (vals.length : Int) ≠ l)) ∧
    (check_comp_col_conditions vals ri co = CheckOutcome.panicked ↔
      co.length ≠ 0 ∧ vals.length = ri.length ∧
      ∃ l, co.getLast? = some l ∧ l < 0) ∧
    (check_comp_col_conditions vals ri co = CheckOutcome.ok ↔
      co.length ≠ 0 ∧ vals.length = ri.length ∧
      co.getLast? = some (vals.length : Int)) := by
  by_cases h0 : co.length = 0
  · have hnil : co = [] := List.length_eq_zero.mp h0
    subst hnil
    simp [check_comp_col_conditions]
  · by_cases h1 : vals.length ≠ ri.length
    · have hres : check_comp_col_conditions vals ri co = CheckOutcome.compColError := by
        unfold check_comp_col_conditions
        rw [if_neg h0, if_pos h1]
      rw [hres]
      refine ⟨by simp [h0, h1], ?_, ?_⟩
      · constructor
        · intro h
          exact absurd h (by decide)
        · rintro ⟨-, h2, -⟩
          exact absurd h2 h1
      · constructor
        · intro h
          exact absurd h (by decide)
        · rintro ⟨-, h2, -⟩
          exact absurd h2 h1
    · push_neg at h1
      cases hl : co.getLast? with
      | none =>
        have hco : co = [] := List.getLast?_eq_none_iff.mp hl
        exact absurd (by simp [hco]) h0
      | some l =>
        have hres : check_comp_col_conditions vals ri co =
            (if l < 0 then CheckOutcome.panicked
             else if (ri.length : Int) ≠ l then CheckOutcome.compColError
             else CheckOutcome.ok) := by
          unfold check_comp_col_conditions
          rw [if_neg h0, if_neg (not_not_intro h1), hl]
        rw [hres]
        by_cases hneg : l < 0
        · rw [if_pos hneg]
          refine ⟨?_, ?_, ?_⟩
          · constructor
            · intro h
              exact absurd h (by decide)
            · rintro (h | ⟨-, h2⟩ | ⟨-, -, l2, hl2, hge, -⟩)
              · exact absurd h h0
              · exact absurd h1 h2
              · have : l = l2 := Option.some_inj.mp hl2
                omega
          · exact ⟨fun _ => ⟨h0, h1, l, rfl, hneg⟩, fun _ => rfl⟩
          · constructor
            · intro h
              exact absurd h (by decide)
            · rintro ⟨-, -, hlast⟩
              have : l = (vals.length : Int) := Option.some_inj.mp hlast
              omega
        · by_cases heq : (ri.length : Int) ≠ l
          · rw [if_neg hneg, if_pos heq]
            refine ⟨?_, ?_, ?_⟩
            · constructor
              · intro _
                refine Or.inr (Or.inr ⟨h0, h1, l, rfl, by omega, ?_⟩)
                rw [h1]
                exact heq
              · intro _
                rfl
            · constructor
              · intro h
                exact absurd h (by decide)
              · rintro ⟨-, -, l2, hl2, hlt⟩
                have : l = l2 := Option.some_inj.mp hl2
                omega
            · constructor
              · intro h
                exact absurd h (by decide)
              · rintro ⟨-, -, hlast⟩
                have h3 : l = (vals.length : Int) := Option.some_inj.mp hlast
                rw [h1] at h3
                exact absurd h3.symm heq
          · rw [if_neg hneg, if_neg heq]
            push_neg at heq
            refine ⟨?_, ?_, ?_⟩
            · constructor
              · intro h
                exact absurd h (by decide)
              · rintro (h | ⟨-, h2⟩ | ⟨-, -, l2, hl2, -, hne⟩)
                · exact absurd h h0
                · exact absurd h1 h2
                · have : l = l2 := Option.some_inj.mp hl2
                  rw [h1] at hne
                  omega
            · constructor
              · intro h
                exact absurd h (by decide)
              · rintro ⟨-, -, l2, hl2, hlt⟩
                have : l = l2 := Option.some_inj.mp hl2
                omega
            · refine ⟨fun _ => ⟨h0, h1, ?_⟩, fun _ => rfl⟩
              rw [h1, heq]

/-- `from_raw` fails with `CompColError` exactly when the check does; it
panics when the check panics or when the check passes but `num_rows` does
not fit in an `i32`; it succeeds — storing the raw vectors unchanged —
exactly when the check passes and `num_rows` fits in an `i32`. -/
theorem from_raw_cases {α : Type} (raw : CompColRaw α) :
    (CompColMat.from_raw raw = FromRawResult.compColError ↔
      check_comp_col_conditions raw.non_zero_vals raw.row_indices raw.col_offsets =
        CheckOutcome.compColError) ∧
    (CompColMat.from_raw raw = FromRawResult.panicked ↔
      (check_comp_col_conditions raw.non_zero_vals raw.row_indices raw.col_offsets =
        CheckOutcome.panicked ∨
       (check_comp_col_conditions raw.non_zero_vals raw.row_indices raw.col_offsets =
        CheckOutcome.ok ∧ 2 ^ 31 ≤ raw.num_rows))) ∧
    (∀ stored, CompColMat.from_raw raw = FromRawResult.ok stored ↔
      (check_comp_col_conditions raw.non_zero_vals raw.row_indices raw.col_offsets =
        CheckOutcome.ok ∧ raw.num_rows < 2 ^ 31 ∧ stored = raw)) := by
  unfold CompColMat.from_raw
  cases hc : check_comp_col_conditions raw.non_zero_vals raw.row_indices raw.col_offsets with
  | ok =>
    by_cases hn : raw.num_rows < 2 ^ 31
    · rw [if_pos hn]
      refine ⟨⟨fun h => FromRawResult.noConfusion h, fun h => absurd h (by decide)⟩,
        ⟨fun h => FromRawResult.noConfusion h, ?_⟩, fun stored => ⟨?_, ?_⟩⟩
      · rintro (h | ⟨-, h2⟩)
        · exact absurd h (by decide)
        · omega
      · intro h
        injection h with h2
        exact ⟨rfl, hn, h2.symm⟩
      · rintro ⟨-, -, hst⟩
        rw [hst]
    · rw [if_neg hn]
      refine ⟨⟨fun h => FromRawResult.noConfusion h, fun h => absurd h (by decide)⟩,
        ⟨fun _ => Or.inr ⟨rfl, by omega⟩, fun _ => rfl⟩,
        fun stored => ⟨fun h => FromRawResult.noConfusion h, ?_⟩⟩
      rintro ⟨-, h2, -⟩
      omega
  | compColError =>
    refine ⟨⟨fun _ => rfl, fun _ => rfl⟩,
      ⟨fun h => FromRawResult.noConfusion h, ?_⟩,
      fun stored => ⟨fun h => FromRawResult.noConfusion h, ?_⟩⟩
    · rintro (h | ⟨h, -⟩) <;> exact absurd h (by decide)
    · rintro ⟨h, -⟩
      exact absurd h (by decide)
  | panicked =>
    refine ⟨⟨fun h => FromRawResult.noConfusion h, fun h => absurd h (by decide)⟩,
      ⟨fun _ => Or.inl rfl, fun _ => rfl⟩,
      fun stored => ⟨fun h => FromRawResult.noConfusion h, ?_⟩⟩
    rintro ⟨h, -⟩
    exact absurd h (by decide)

/-- **C3** counterexample: at the concrete input
`num_rows = 0, values = [], row_indices = [], column_offsets = [-1]`, the
claim's third structural check fails (the last column offset `-1` differs
from the values length `0`), so the claim requires `Err(CompColError)`; the
code instead panics (`try_into().unwrap()` on the negative offset), so
construction neither returns `Err` nor succeeds — the claimed "Err if and
only if a check fails" equivalence is false at this input. -/
theorem from_raw_negative_offset_counterexample :
    check_comp_col_conditions ([] : List Int) [] [(-1 : Int)] = CheckOutcome.panicked ∧
    CompColMat.from_raw (CompColRaw.mk 0 ([] : List Int) [] [(-1 : Int)]) =
      FromRawResult.panicked ∧
    (FromRawResult.panicked : FromRawResult Int) ≠ FromRawResult.compColError ∧
    [(-1 : Int)].getLast? = some (-1) ∧
    ((([] : List Int).length : Int) ≠ (-1 : Int)) := by
  refine ⟨rfl, rfl, by decide, rfl, by decide⟩

/-- **C3** (corrected): constructing a compressed-column view from raw
vectors returns `Err(CompColError)` if and only if one of the structural
checks — `column_offsets` non-empty (its length is `num_cols + 1` by
construction), `values`/`row_indices` of equal length, last element of
`column_offsets` equal to the values length — fails *with a non-negative
last offset when that third check is reached*.  Two inputs panic instead of
returning `Err` or succeeding: when the first two checks pass and the last
column offset is negative (the failed `i32 → usize` conversion inside the
check), and when all three checks pass but `num_rows` exceeds `i32::MAX`
(the failed `usize → i32` conversion of `num_rows`).  Construction succeeds
exactly when all checks hold and `num_rows` fits in an `i32`; in every case
no vector is truncated or padded — a successful `from_raw` stores exactly
the input vectors. -/
theorem from_raw_validation {α : Type} (raw : CompColRaw α) :
    (CompColMat.from_raw raw = FromRawResult.compColError ↔
      raw.col_offsets.length = 0 ∨
      (raw.col_offsets.length ≠ 0 ∧
        raw.non_zero_vals.length ≠ raw.row_indices.length) ∨
      (raw.col_offsets.length ≠ 0 ∧
        raw.non_zero_vals.length = raw.row_indices.length ∧
        ∃ l, raw.col_offsets.getLast? = some l ∧ 0 ≤ l ∧
          (raw.non_zero_vals.length : Int) ≠ l)) ∧
    (CompColMat.from_raw raw = FromRawResult.panicked ↔
      ((raw.col_offsets.length ≠ 0 ∧
        raw.non_zero_vals.length = raw.row_indices.length ∧
        ∃ l, raw.col_offsets.getLast? = some l ∧ l < 0) ∨
       (raw.col_offsets.length ≠ 0 ∧
        raw.non_zero_vals.length = raw.row_indices.length ∧
        raw.col_offsets.getLast? = some (raw.non_zero_vals.length : Int) ∧
        2 ^ 31 ≤ raw.num_rows))) ∧
    (CompColMat.from_raw raw = FromRawResult.ok raw ↔
      raw.col_offsets.length ≠ 0 ∧
      raw.non_zero_vals.length = raw.row_indices.length ∧
      raw.col_offsets.getLast? = some (raw.non_zero_vals.length : Int) ∧
      raw.num_rows < 2 ^ 31) ∧
    (∀ stored, CompColMat.from_raw raw = FromRawResult.ok stored → stored = raw) := by
  have hcheck := check_comp_col_cases raw.non_zero_vals raw.row_indices raw.col_offsets
  have hraw := from_raw_cases raw
  refine ⟨?_, ?_, ?_, ?_⟩
  · rw [hraw.1]
    exact hcheck.1
  · constructor
    · intro h
      rcases hraw.2.1.mp h with hp | ⟨hok, hn⟩
      · exact Or.inl (hcheck.2.1.mp hp)
      · obtain ⟨h1, h2, h3⟩ := hcheck.2.2.mp hok
        exact Or.inr ⟨h1, h2, h3, hn⟩
    · intro h
      apply hraw.2.1.mpr
      rcases h with hp | ⟨h1, h2, h3, h4⟩
      · exact Or.inl (hcheck.2.1.mpr hp)
      · exact Or.inr ⟨hcheck.2.2.mpr ⟨h1, h2, h3⟩, h4⟩
  · rw [hraw.2.2 raw, hcheck.2.2]
    constructor
    · rintro ⟨⟨h1, h2, h3⟩, h4, -⟩
      exact ⟨h1, h2, h3, h4⟩
    · rintro ⟨h1, h2, h3, h4⟩
      exact ⟨⟨h1, h2, h3⟩, h4, rfl⟩
  · intro stored h
    exact ((hraw.2.2 stored).mp h).2.2

/-- Witness for the corrected C3 at concrete inputs: a valid construction
(two values, offsets `[0, 1, 2]`, two rows) is `ok` and stores the vectors
unchanged; an input failing the equal-lengths check is `Err(CompColError)`;
and an input passing all structural checks with `num_rows = 2^31` (beyond
`i32::MAX`) panics. -/
theorem from_raw_validation_witness :
    CompColMat.from_raw (CompColRaw.mk 2 ([1, 2] : List Int) [1, 0] [0, 1, 2]) =
      FromRawResult.ok (CompColRaw.mk 2 ([1, 2] : List Int) [1, 0] [0, 1, 2]) ∧
    CompColMat.from_raw (CompColRaw.mk 2 ([1, 2] : List Int) [1] [0, 1, 2]) =
      FromRawResult.compColError ∧
    CompColMat.from_raw (CompColRaw.mk (2 ^ 31) ([] : List Int) [] [0]) =
      FromRawResult.panicked := by
  refine ⟨?_, ?_, ?_⟩
  · exact (from_raw_validation (CompColRaw.mk 2 ([1, 2] : List Int) [1, 0] [0, 1, 2])).2.2.1.mpr
      ⟨by decide, by decide, by decide, by decide⟩
  · exact (from_raw_validation (CompColRaw.mk 2 ([1, 2] : List Int) [1] [0, 1, 2])).1.mpr
      (Or.inr (Or.inl ⟨by decide, by decide⟩))
  · exact (from_raw_validation (CompColRaw.mk (2 ^ 31) ([] : List Int) [] [0])).2.1.mpr
      (Or.inr ⟨by decide, by decide, by decide, by decide⟩)

/-! ## Correctness of the binary search used by `CompColMatrix::value` -/

theorem getD_eq_getElem (l : List Int) (i : Nat) (h : i < l.length) :
    l.getD i 0 = l[i] := by
  rw [List.getD_eq_getElem?_getD, List.getElem?_eq_getElem h]
  rfl

theorem pairwise_lt_getD {xs : List Int} (hs : xs.Pairwise (· < ·)) {i j : Nat}
    (hij : i < j) (hj : j < xs.length) : xs.getD i 0 < xs.getD j 0 := by
  have hi : i < xs.length := lt_trans hij hj
  rw [getD_eq_getElem xs i hi, getD_eq_getElem xs j hj]
  exact List.pairwise_iff_getElem.mp hs i j hi hj hij

/-- Invariant-based correctness of the embedded `slice::binary_search` loop
on a strictly sorted slice: with enough fuel, if every index holding the
target lies in `[left, right)`, then an `Ok` result is an index holding the
target, and an `Err` result means the target occurs nowhere. -/
theorem bsearchLoop_correct (xs : List Int) (target : Int)
    (hs : xs.Pairwise (· < ·)) :
    ∀ fuel left right, right - left ≤ fuel → right ≤ xs.length →
    (∀ i, i < xs.length → xs.getD i 0 = target → left ≤ i ∧ i < right) →
    (match CompColMatrix.bsearchLoop xs target fuel left right with
     | Except.ok j => j < xs.length ∧ xs.getD j 0 = target
     | Except.error _ => ∀ i, i < xs.length → xs.getD i 0 ≠ target) := by
  intro fuel
  induction fuel with
  | zero =>
    intro left right hfuel hr hinv
    show ∀ i, i < xs.length → xs.getD i 0 ≠ target
    intro i hi heq
    have := hinv i hi heq
    omega
  | succ fuel ih =>
    intro left right hfuel hr hinv
    rw [CompColMatrix.bsearchLoop]
    by_cases hlr : left < right
    · rw [if_pos hlr]
      have hmidlt : left + (right - left) / 2 < right := by omega
      have hmidlen : left + (right - left) / 2 < xs.length := lt_of_lt_of_le hmidlt hr
      by_cases h1 : xs.getD (left + (right - left) / 2) 0 < target
      · rw [if_pos h1]
        apply ih
        · omega
        · exact hr
        · intro i hi heq
          have hiv := hinv i hi heq
          refine ⟨?_, hiv.2⟩
          by_contra hc
          push_neg at hc
          rcases Nat.lt_or_ge i (left + (right - left) / 2) with hlt | hge
          · have := pairwise_lt_getD hs hlt hmidlen
            omega
          · have hieq : i = left + (right - left) / 2 := by omega
            rw [hieq] at heq
            omega
      · rw [if_neg h1]
        by_cases h2 : target < xs.getD (left + (right - left) / 2) 0
        · rw [if_pos h2]
          apply ih
          · omega
          · exact le_trans (le_of_lt hmidlt) hr
          · intro i hi heq
            have hiv := hinv i hi heq
            refine ⟨hiv.1, ?_⟩
            by_contra hc
            push_neg at hc
            rcases Nat.lt_or_ge (left + (right - left) / 2) i with hlt | hge
            · have := pairwise_lt_getD hs hlt hi
              omega
            · have hieq : i = left + (right - left) / 2 := by omega
              rw [hieq] at heq
              omega
        · rw [if_neg h2]
          exact ⟨hmidlen, by omega⟩
    · rw [if_neg hlr]
      show ∀ i, i < xs.length → xs.getD i 0 ≠ target
      intro i hi heq
      have := hinv i hi heq
      omega

/-- `slice::binary_search` on a strictly sorted slice: `Ok` finds an index
holding the target, `Err` means the target is absent. -/
theorem binary_search_found (xs : List Int) (target : Int)
    (hs : xs.Pairwise (· < ·)) :
    (match CompColMatrix.binary_search xs target with
     | Except.ok j => j < xs.length ∧ xs.getD j 0 = target
     | Except.error _ => ∀ i, i < xs.length → xs.getD i 0 ≠ target) :=
  bsearchLoop_correct xs target hs xs.length 0 xs.length (by omega) (le_refl _)
    (fun i hi _ => ⟨Nat.zero_le i, hi⟩)

theorem offsets_mono_le {α : Type} (m : CompColMatrix α)
    (hmono : ∀ c, c < m.num_columns →
      m.column_offsets.getD c 0 ≤ m.column_offsets.getD (c + 1) 0) :
    ∀ c d, c ≤ d → d ≤ m.num_columns →
      m.column_offsets.getD c 0 ≤ m.column_offsets.getD d 0 := by
  intro c d hcd hd
  induction d with
  | zero =>
    have hc0 : c = 0 := by omega
    rw [hc0]
  | succ d ih =>
    rcases Nat.lt_or_ge c (d + 1) with h | h
    · have h1 := ih (by omega) (by omega)
      have h2 := hmono d (by omega)
      omega
    · have hceq : c = d + 1 := by omega
      rw [hceq]

theorem usizeOfI32_eq_toNat {i : Int} (h0 : 0 ≤ i) (h1 : i < (2 : Int) ^ 64) :
    CompColMatrix.usizeOfI32 i = i.toNat := by
  unfold CompColMatrix.usizeOfI32
  rw [Int.emod_eq_of_lt h0 h1]

/-- **C4** (confirmed): on a well-formed compressed-column matrix (whose row
indices are strictly ascending within each column's slice), for an in-bounds
pair the lookup `value(row, col)` returns `some` value which is the stored
non-zero value whenever `row` occurs (necessarily at a unique position `j`)
in column `col`'s slice of `row_indices`, and is the additive identity when
`row` does not occur there; for an out-of-bounds row or column the call
fails its bounds assertion (modelled as `none`) instead of returning a
value. -/
theorem value_lookup_spec {α : Type} [Zero α] (m : CompColMatrix α)
    (hwf : m.WellFormed) (row col : Nat) :
    (row < m.num_rows → col < m.num_columns →
      ∃ v, m.value row col = some v ∧
        ((row : Int) ∉ m.colSlice col → v = 0) ∧
        (∀ j, j < (m.colSlice col).length →
          (m.colSlice col).getD j 0 = (row : Int) →
          m.non_zero_values.get? (m.colStart col + j) = some v)) ∧
    ((m.num_rows ≤ row ∨ m.num_columns ≤ col) → m.value row col = none) := by
  obtain ⟨hlen, hrange, hmono, hlast, hril, hsorted⟩ := hwf
  constructor
  · intro hrow hcol
    have hclen : col < m.column_offsets.length := by omega
    have hclen1 : col + 1 < m.column_offsets.length := by omega
    have hr1 := hrange col hclen
    have hr2 := hrange (col + 1) hclen1
    have hcs : m.colStart col = (m.column_offsets.getD col 0).toNat :=
      usizeOfI32_eq_toNat hr1.1 (lt_trans hr1.2 (by norm_num))
    have hce : m.colStart (col + 1) = (m.column_offsets.getD (col + 1) 0).toNat :=
      usizeOfI32_eq_toNat hr2.1 (lt_trans hr2.2 (by norm_num))
    have hmono1 := hmono col hcol
    have hlast1 : m.column_offsets.getD (col + 1) 0 ≤ (m.non_zero_values.length : Int) := by
      have h := offsets_mono_le m hmono (col + 1) m.num_columns (by omega) (le_refl _)
      rw [hlast] at h
      exact h
    have hcs_le_ce : m.colStart col ≤ m.colStart (col + 1) := by omega
    have hce_le_ril : m.colStart (col + 1) ≤ m.row_indices.length := by omega
    have hslice_len : (m.colSlice col).length =
        m.colStart (col + 1) - m.colStart col := by
      unfold CompColMatrix.colSlice
      rw [List.length_drop, List.length_take, min_eq_left hce_le_ril]
    have hcond : ¬(m.colStart (col + 1) < m.colStart col ∨
        m.row_indices.length < m.colStart (col + 1)) := by omega
    have hsorted_col := hsorted col hcol
    cases hsr : CompColMatrix.binary_search (m.colSlice col) (row : Int) with
    | ok i =>
      have hb2 : i < (m.colSlice col).length ∧
          (m.colSlice col).getD i 0 = (row : Int) := by
        have hb := binary_search_found (m.colSlice col) (row : Int) hsorted_col
        rw [hsr] at hb
        exact hb
      have hlt : m.colStart col + i < m.non_zero_values.length := by omega
      have hget : m.non_zero_values.get? (m.colStart col + i) =
          some (m.non_zero_values.get ⟨m.colStart col + i, hlt⟩) :=
        List.get?_eq_get hlt
      have hval_eq : m.value row col =
          some (m.non_zero_values.get ⟨m.colStart col + i, hlt⟩) := by
        unfold CompColMatrix.value
        rw [if_neg (by omega), if_neg (by omega), if_neg hcond, hsr]
        show (match m.non_zero_values.get? (m.colStart col + i) with
              | some v => some v
              | none => none) =
          some (m.non_zero_values.get ⟨m.colStart col + i, hlt⟩)
        rw [hget]
      refine ⟨_, hval_eq, ?_, ?_⟩
      · intro hnm
        exfalso
        apply hnm
        rw [← hb2.2, getD_eq_getElem _ _ hb2.1]
        exact List.getElem_mem hb2.1
      · intro j hj hjr
        have hji : j = i := by
          by_contra hne
          rcases Nat.lt_or_ge j i with hlt2 | hge
          · have := pairwise_lt_getD hsorted_col hlt2 hb2.1
            omega
          · have hlt2 : i < j := by omega
            have := pairwise_lt_getD hsorted_col hlt2 hj
            omega
        rw [hji]
        exact hget
    | error e =>
      have hb2 : ∀ i, i < (m.colSlice col).length →
          (m.colSlice col).getD i 0 ≠ (row : Int) := by
        have hb := binary_search_found (m.colSlice col) (row : Int) hsorted_col
        rw [hsr] at hb
        exact hb
      have hval_eq : m.value row col = some 0 := by
        unfold CompColMatrix.value
        rw [if_neg (by omega), if_neg (by omega), if_neg hcond, hsr]
      refine ⟨0, hval_eq, fun _ => rfl, ?_⟩
      intro j hj hjr
      exact absurd hjr (hb2 j hj)
  · intro hb
    unfold CompColMatrix.value
    rcases hb with hb | hb
    · rw [if_pos hb]
    · by_cases hr2 : m.num_rows ≤ row
      · rw [if_pos hr2]
      · rw [if_neg hr2, if_pos hb]

/-- Witness for C4: the concrete matrix `compColW4` is well formed, and the
specification instantiated at the in-bounds pair `(2, 0)` (a stored entry)
holds for it. -/
theorem value_lookup_spec_witness :
    compColW4.WellFormed ∧
    ((2 < compColW4.num_rows → 0 < compColW4.num_columns →
      ∃ v, compColW4.value 2 0 = some v ∧
        (((2 : Nat) : Int) ∉ compColW4.colSlice 0 → v = 0) ∧
        (∀ j, j < (compColW4.colSlice 0).length →
          (compColW4.colSlice 0).getD j 0 = ((2 : Nat) : Int) →
          compColW4.non_zero_values.get? (compColW4.colStart 0 + j) = some v)) ∧
     ((compColW4.num_rows ≤ 2 ∨ compColW4.num_columns ≤ 0) →
       compColW4.value 2 0 = none)) :=
  ⟨by decide, value_lookup_spec compColW4 (by decide) 2 0⟩

/-- **C2** (code bug): the `Mul` implementation sums
`self.value(row, column) * x[row]` — it multiplies by `x[row]` instead of
`x[column]` (src/comp_col.rs line 186).  At the concrete 2×2 matrix whose
only non-zero entry is `A[0,1] = 1`, with `x = [10, 20]`, the code returns
`b = [10, 0]`, while the dense matrix-vector product the claim states,
`b[r] = Σ_c A[r,c]·x[c]`, gives `b[0] = A[0,0]·x[0] + A[0,1]·x[1] =
0·10 + 1·20 = 20 ≠ 10`. -/
theorem mat_vec_mul_uses_row_index :
    CompColMatrix.matVecMul mulCounterexampleMatrix [10, 20] = some [10, 0] ∧
    mulCounterexampleMatrix.value 0 0 = some 0 ∧
    mulCounterexampleMatrix.value 0 1 = some 1 ∧
    mulCounterexampleMatrix.value 1 0 = some 0 ∧
    mulCounterexampleMatrix.value 1 1 = some 0 ∧
    ((0 : Int) * 10 + 1 * 20 = 20) ∧
    ((10 : Int) ≠ 20) :=
  ⟨by decide, by decide, by decide, by decide, by decide, by decide, by decide⟩

end CSuperlu
